import Mathlib

/-!
# Verification of the libunbound asynchronous query-coordination core

Shallow embedding of `src/libunbound/context.h` (the validating-context data
model of the unbound resolver library) together with the operations the header
declares.  The header fixes the data model (`struct ub_val_ctx`,
`struct ctx_query`, `enum ub_ctx_err`) and declares `context_finalize` and
`context_new`; the bodies of the operations, and the `new_query` /
`poll_result` / `cancel` orchestration, live outside this fragment, so those
operations are modelled from the specification (each such definition's doc
comment says so explicitly).

The query index (an rbtree keyed by `querynum` in the source) is modelled as an
association list of `ctx_query` records keyed by their `querynum` field; the
identifier space of the C `int` is modelled as the residues modulo a parameter
`N`.  A ghost `serial` field (admission sequence number, not present in the C
struct) tags each record so that delivery events can be attributed to one
record lifetime even after its identifier has been reused.
-/

/-- The error constants of `enum ub_ctx_err` in `libunbound/context.h`. -/
inductive ub_ctx_err where
  | UB_NOERROR
  | UB_NOMEM
  | UB_SOCKET
  | UB_SYNTAX
  | UB_SERVFAIL
  | UB_INITFAIL
deriving DecidableEq, Repr

open ub_ctx_err

/-- The C integer value of each `ub_ctx_err` constant: `UB_NOERROR = 0` is
written explicitly in the source and the remaining enumerators take the
successive values 1..5 by C enumeration rules. -/
def ub_ctx_err.toNat : ub_ctx_err → Nat
  | UB_NOERROR => 0
  | UB_NOMEM => 1
  | UB_SOCKET => 2
  | UB_SYNTAX => 3
  | UB_SERVFAIL => 4
  | UB_INITFAIL => 5

/-- The result structure handed to the client.  Per the source comment on
`ctx_query.res`: "result structure, also contains original query, type,
class."  The resolution outcome itself is opaque to this core and is modelled
by a single `status` field. -/
structure ub_val_result where
  qname : String
  qtype : Nat
  qclass : Nat
  status : Nat
deriving DecidableEq, Repr

/-- One outstanding query: `struct ctx_query` of the source (`querynum` key,
`async` flag, result structure).  The callback function pointer and its opaque
argument are present iff `async`; their identity plays no role in the claims,
so only the `async` flag is carried.  `serial` is a ghost admission sequence
number used to track one record's lifetime across identifier reuse. -/
structure ctx_query where
  querynum : Nat
  async : Bool
  res : ub_val_result
  serial : Nat
deriving DecidableEq, Repr

/-- The context state: the fields of `struct ub_val_ctx` that the claims are
about (`finalized`, `next_querynum`, `num_async`, `queries`).  The rbtree
`queries` is modelled as a list of records keyed by their `querynum` field.
`setup_count` is a ghost counter of how many times the one-time finalize side
effects (worker-pool spawn, shared caches, module stack) have been performed;
`serial_next` is the ghost admission counter. -/
structure ub_val_ctx where
  finalized : Bool
  setup_count : Nat
  next_querynum : Nat
  num_async : Nat
  serial_next : Nat
  queries : List ctx_query
deriving DecidableEq, Repr

/-- The keys currently present in the query index. -/
def queriesKeys (qs : List ctx_query) : List Nat :=
  qs.map (fun q => q.querynum)

/-- `lookup(identifier)` on the query index: the record with that key, if
present. -/
def ctx_lookup (qs : List ctx_query) (id : Nat) : Option ctx_query :=
  qs.find? (fun q => q.querynum == id)

/-- `remove(identifier)` on the query index: the index with every record keyed
`id` removed (at most one is present when keys are distinct). -/
def ctx_remove (qs : List ctx_query) (id : Nat) : List ctx_query :=
  qs.filter (fun q => q.querynum != id)

/-- Number of async records in the index. -/
def countAsync (qs : List ctx_query) : Nat :=
  (qs.filter (fun q => q.async)).length

/-- Modelled from the spec (§4.1 `allocate_and_insert`; the body of
`context_new` is not in this fragment): probe successive candidates
`start % N, (start+1) % N, ...` for at most `fuel` attempts, returning the
first candidate that is not a key of the index, or `none` when the attempts
are exhausted.  `context_new` calls it with `fuel = N`, so `none` means the
whole identifier space `0..N-1` is occupied. -/
def probe_free (N : Nat) (keys : List Nat) (start : Nat) : Nat → Option Nat
  | 0 => none
  | fuel + 1 =>
    if start % N ∈ keys then probe_free N keys (start + 1) fuel
    else some (start % N)

/-- Modelled from the spec (`context_new` is declared in the header — "Create
new query in context, add to querynum list ... return new ctx_query or NULL
for malloc failure" — but its body is not in this fragment): on malloc
failure, or when the identifier space is exhausted, return `none`; otherwise
allocate the first free identifier probing from `next_querynum`, build the
record (whose result structure carries the original name, type and class),
insert it into the index, bump `next_querynum` past the used candidate,
and count it in `num_async` iff async. -/
def context_new (N : Nat) (ctx : ub_val_ctx) (name : String) (rrtype : Nat)
    (rrclass : Nat) (isAsync : Bool) (malloc_ok : Bool) :
    Option (ctx_query × ub_val_ctx) :=
  if malloc_ok = false then none
  else
    match probe_free N (queriesKeys ctx.queries) ctx.next_querynum N with
    | none => none
    | some id =>
      let q : ctx_query :=
        { querynum := id
          async := isAsync
          serial := ctx.serial_next
          res := { qname := name, qtype := rrtype, qclass := rrclass, status := 0 } }
      some (q, { ctx with
                 queries := q :: ctx.queries
                 next_querynum := id + 1
                 num_async := ctx.num_async + (if isAsync then 1 else 0)
                 serial_next := ctx.serial_next + 1 })

/-- Failure injections for one admission: whether the input parses, whether
allocation succeeds, and whether the channel send succeeds. -/
structure adm_env where
  syntax_ok : Bool
  malloc_ok : Bool
  send_ok : Bool
deriving DecidableEq, Repr

/-- Modelled from the spec (§4.4 `new_query`; not implemented in this
fragment): requires `finalized`; malformed input is rejected with
`UB_SYNTAX` before dispatch; allocation failure (memory or identifier-space
exhaustion, i.e. `context_new = none`) yields `UB_NOMEM`; a channel-send
failure yields `UB_SOCKET` with the partially-constructed record fully rolled
back (the returned state is exactly the input state); on success the record is
in the index and its identifier is returned. -/
def new_query (N : Nat) (ctx : ub_val_ctx) (name : String) (rrtype : Nat)
    (rrclass : Nat) (isAsync : Bool) (env : adm_env) :
    ub_ctx_err × Option Nat × ub_val_ctx :=
  if ctx.finalized = false then (UB_INITFAIL, none, ctx)
  else if env.syntax_ok = false then (UB_SYNTAX, none, ctx)
  else
    match context_new N ctx name rrtype rrclass isAsync env.malloc_ok with
    | none => (UB_NOMEM, none, ctx)
    | some (q, ctx') =>
      if env.send_ok = false then (UB_SOCKET, none, ctx)
      else (UB_NOERROR, some q.querynum, ctx')

/-- Modelled from the spec (§4.4 `finalize`; the body of `context_finalize` is
not in this fragment): on an already-finalized context, a no-op returning
success; otherwise, if setup succeeds, perform the one-time side effects
(ghost-counted by `setup_count`) and set `finalized`; if setup fails, return
`UB_INITFAIL` leaving the context unchanged. -/
def context_finalize (ctx : ub_val_ctx) (setup_ok : Bool) :
    ub_ctx_err × ub_val_ctx :=
  if ctx.finalized then (UB_NOERROR, ctx)
  else if setup_ok then
    (UB_NOERROR, { ctx with
                   finalized := true
                   setup_count := ctx.setup_count + 1 })
  else (UB_INITFAIL, ctx)

/-- A message on the result channel: the identifier it answers and the
resolution status computed by the worker. -/
structure result_msg where
  querynum : Nat
  status : Nat
deriving DecidableEq, Repr

/-- The result handed to the owner: the record's admission-time result
structure (which carries the original query name, type and class) completed
with the worker's status. -/
def delivered_result (q : ctx_query) (msg : result_msg) : ub_val_result :=
  { q.res with status := msg.status }

/-- A delivery event: an async callback invocation, or the hand-back to a
blocked synchronous caller.  Each is tagged by the ghost serial of the record
it delivers to. -/
inductive DeliverEvent where
  | cbInvoke (serial : Nat) (res : ub_val_result)
  | syncDeliver (serial : Nat) (res : ub_val_result)
deriving DecidableEq, Repr

/-- The serial of the record a delivery event delivers to. -/
def DeliverEvent.serialOf : DeliverEvent → Nat
  | .cbInvoke s _ => s
  | .syncDeliver s _ => s

/-- Modelled from the spec (§4.4 `poll_result`; not implemented in this
fragment): look the message's identifier up in the index; if absent (already
cancelled) the result is discarded — no event, state unchanged.  Otherwise
remove the record; for an async record decrement `num_async` and invoke the
callback once, for a sync record hand the result to the blocked caller. -/
def poll_result (ctx : ub_val_ctx) (msg : result_msg) :
    ub_val_ctx × List DeliverEvent :=
  match ctx_lookup ctx.queries msg.querynum with
  | none => (ctx, [])
  | some q =>
    ({ ctx with
       queries := ctx_remove ctx.queries msg.querynum
       num_async := ctx.num_async - (if q.async then 1 else 0) },
     if q.async then [DeliverEvent.cbInvoke q.serial (delivered_result q msg)]
     else [DeliverEvent.syncDeliver q.serial (delivered_result q msg)])

/-- Modelled from the spec (§4.4 `cancel`; not implemented in this fragment):
if the identifier is outstanding, remove the record (releasing its buffered
result) and decrement `num_async` if it was async; otherwise a no-op.  Always
returns success. -/
def cancel (ctx : ub_val_ctx) (id : Nat) : ub_ctx_err × ub_val_ctx :=
  match ctx_lookup ctx.queries id with
  | none => (UB_NOERROR, ctx)
  | some q =>
    (UB_NOERROR,
     { ctx with
       queries := ctx_remove ctx.queries id
       num_async := ctx.num_async - (if q.async then 1 else 0) })

/-- One external stimulus to the context. -/
inductive Cmd where
  | finalize (setup_ok : Bool)
  | newQuery (name : String) (rrtype : Nat) (rrclass : Nat) (isAsync : Bool)
      (env : adm_env)
  | pollResult (msg : result_msg)
  | cancelQ (id : Nat)
deriving DecidableEq, Repr

/-- One step of the context state machine, returning the new state and the
delivery events the step emitted. -/
def ctx_step (N : Nat) (ctx : ub_val_ctx) : Cmd → ub_val_ctx × List DeliverEvent
  | .finalize ok => ((context_finalize ctx ok).2, [])
  | .newQuery name t c a env => ((new_query N ctx name t c a env).2.2, [])
  | .pollResult msg => poll_result ctx msg
  | .cancelQ id => ((cancel ctx id).2, [])

/-- Run a sequence of stimuli, accumulating delivery events. -/
def ctx_run (N : Nat) (ctx : ub_val_ctx) : List Cmd → ub_val_ctx × List DeliverEvent
  | [] => (ctx, [])
  | c :: cs =>
    let s := ctx_step N ctx c
    let r := ctx_run N s.1 cs
    (r.1, s.2 ++ r.2)

/-- The freshly created, not yet finalized context. -/
def init_ctx : ub_val_ctx :=
  { finalized := false
    setup_count := 0
    next_querynum := 0
    num_async := 0
    serial_next := 0
    queries := [] }

/-! ## Properties of the identifier probe -/

/-- A successful probe returns the first free candidate: some `k`-th successive
candidate from `start`, itself not a key, with every earlier candidate a key. -/
theorem probe_free_some (N : Nat) (keys : List Nat) :
    ∀ (fuel start i : Nat), probe_free N keys start fuel = some i →
      ∃ k, k < fuel ∧ i = (start + k) % N ∧ i ∉ keys ∧
        ∀ j, j < k → (start + j) % N ∈ keys := by
  intro fuel
  induction fuel with
  | zero => intro start i h; simp [probe_free] at h
  | succ n ih =>
    intro start i h
    simp only [probe_free] at h
    by_cases hmem : start % N ∈ keys
    · rw [if_pos hmem] at h
      obtain ⟨k, hk, hi, hfree, hall⟩ := ih (start + 1) i h
      refine ⟨k + 1, by omega, ?_, hfree, ?_⟩
      · rw [hi, show start + 1 + k = start + (k + 1) by omega]
      · intro j hj
        match j with
        | 0 => simpa using hmem
        | j' + 1 =>
          have h2 := hall j' (by omega)
          rw [show start + (j' + 1) = start + 1 + j' by omega]
          exact h2
    · rw [if_neg hmem] at h
      have hi : i = start % N := (Option.some.inj h).symm
      refine ⟨0, by omega, by simpa using hi, by rwa [hi], ?_⟩
      intro j hj
      exact absurd hj (Nat.not_lt_zero j)

/-- An exhausted probe saw every candidate occupied. -/
theorem probe_free_none (N : Nat) (keys : List Nat) :
    ∀ (fuel start : Nat), probe_free N keys start fuel = none →
      ∀ j, j < fuel → (start + j) % N ∈ keys := by
  intro fuel
  induction fuel with
  | zero => intro start _ j hj; omega
  | succ n ih =>
    intro start h j hj
    simp only [probe_free] at h
    by_cases hmem : start % N ∈ keys
    · rw [if_pos hmem] at h
      match j with
      | 0 => simpa using hmem
      | j' + 1 =>
        have h2 := ih (start + 1) h j' (by omega)
        rw [show start + (j' + 1) = start + 1 + j' by omega]
        exact h2
    · rw [if_neg hmem] at h
      exact absurd h (by simp)

/-- If every candidate is occupied, the probe is exhausted. -/
theorem probe_free_eq_none (N : Nat) (keys : List Nat) :
    ∀ (fuel start : Nat), (∀ j, j < fuel → (start + j) % N ∈ keys) →
      probe_free N keys start fuel = none := by
  intro fuel
  induction fuel with
  | zero => intro start _; rfl
  | succ n ih =>
    intro start hall
    have h0 : start % N ∈ keys := by simpa using hall 0 (by omega)
    simp only [probe_free, if_pos h0]
    refine ih (start + 1) (fun j hj => ?_)
    have h2 := hall (j + 1) (by omega)
    rwa [show start + (j + 1) = start + 1 + j by omega] at h2

/-- The `N` successive candidates from any starting point cover every residue
modulo `N`. -/
theorem residues_cover (N start r : Nat) (hN : 0 < N) (hr : r < N) :
    ∃ j, j < N ∧ (start + j) % N = r := by
  have hs : start % N < N := Nat.mod_lt _ hN
  by_cases hle : start % N ≤ r
  · refine ⟨r - start % N, by omega, ?_⟩
    rw [Nat.add_mod, Nat.mod_eq_of_lt (show r - start % N < N by omega)]
    rw [show start % N + (r - start % N) = r by omega]
    exact Nat.mod_eq_of_lt hr
  · refine ⟨r + N - start % N, by omega, ?_⟩
    rw [Nat.add_mod, Nat.mod_eq_of_lt (show r + N - start % N < N by omega)]
    rw [show start % N + (r + N - start % N) = r + N by omega]
    rw [Nat.add_mod_right]
    exact Nat.mod_eq_of_lt hr

/-- A full-fuel probe is exhausted exactly when the whole identifier space
`0..N-1` is occupied. -/
theorem probe_free_none_iff (N : Nat) (keys : List Nat) (start : Nat)
    (hN : 0 < N) :
    probe_free N keys start N = none ↔ ∀ r, r < N → r ∈ keys := by
  constructor
  · intro h r hr
    obtain ⟨j, hj, hjr⟩ := residues_cover N start r hN hr
    have := probe_free_none N keys N start h j hj
    rwa [hjr] at this
  · intro h
    refine probe_free_eq_none N keys N start (fun j _ => ?_)
    exact h _ (Nat.mod_lt _ hN)

/-! ## Properties of the query index -/

theorem queriesKeys_nil : queriesKeys [] = [] := rfl

theorem queriesKeys_cons (p : ctx_query) (rest : List ctx_query) :
    queriesKeys (p :: rest) = p.querynum :: queriesKeys rest := rfl

/-- A successful lookup returns a member of the index bearing the looked-up
key. -/
theorem ctx_lookup_mem {qs : List ctx_query} {id : Nat} {q : ctx_query}
    (h : ctx_lookup qs id = some q) : q ∈ qs ∧ q.querynum = id := by
  refine ⟨List.mem_of_find?_eq_some h, ?_⟩
  simpa using List.find?_some h

/-- Lookup misses exactly when the identifier is not a key of the index. -/
theorem ctx_lookup_eq_none {qs : List ctx_query} {id : Nat} :
    ctx_lookup qs id = none ↔ id ∉ queriesKeys qs := by
  rw [ctx_lookup, List.find?_eq_none]
  constructor
  · intro h hmem
    obtain ⟨q, hq, hqid⟩ := List.mem_map.mp hmem
    exact h q hq (by simp [hqid])
  · intro h q hq
    simp only [beq_iff_eq]
    intro heq
    exact h (List.mem_map.mpr ⟨q, hq, heq⟩)

/-- Removing an absent key is a no-op. -/
theorem ctx_remove_eq_self {qs : List ctx_query} {id : Nat}
    (h : id ∉ queriesKeys qs) : ctx_remove qs id = qs := by
  rw [ctx_remove, List.filter_eq_self]
  intro q hq
  simp only [bne_iff_ne, ne_eq]
  intro heq
  exact h (by rw [queriesKeys]; exact List.mem_map.mpr ⟨q, hq, heq⟩)

theorem ctx_remove_sublist (qs : List ctx_query) (id : Nat) :
    (ctx_remove qs id).Sublist qs :=
  List.filter_sublist qs

theorem mem_ctx_remove {qs : List ctx_query} {id : Nat} {q : ctx_query} :
    q ∈ ctx_remove qs id ↔ q ∈ qs ∧ q.querynum ≠ id := by
  simp [ctx_remove, List.mem_filter]

/-- After a removal the removed identifier is no longer found. -/
theorem ctx_lookup_ctx_remove (qs : List ctx_query) (id : Nat) :
    ctx_lookup (ctx_remove qs id) id = none := by
  rw [ctx_lookup, List.find?_eq_none]
  intro x hx
  simpa using (mem_ctx_remove.mp hx).2

/-- With distinct keys, the index is (up to permutation) the found record plus
the index with its key removed. -/
theorem lookup_remove_perm :
    ∀ (qs : List ctx_query) (id : Nat) (q : ctx_query),
      (queriesKeys qs).Nodup → ctx_lookup qs id = some q →
      qs.Perm (q :: ctx_remove qs id) := by
  intro qs
  induction qs with
  | nil => intro id q _ h; simp [ctx_lookup] at h
  | cons p rest ih =>
    intro id q hnd hl
    rw [queriesKeys_cons, List.nodup_cons] at hnd
    by_cases hp : p.querynum = id
    · have hq : q = p := by
        rw [ctx_lookup, List.find?_cons_of_pos _ (by simp [hp])] at hl
        exact (Option.some.inj hl).symm
      have hid : id ∉ queriesKeys rest := by rw [← hp]; exact hnd.1
      have hrm : ctx_remove (p :: rest) id = rest := by
        rw [ctx_remove, List.filter_cons, if_neg (by simp [hp])]
        exact ctx_remove_eq_self hid
      rw [hq, hrm]
    · have hl' : ctx_lookup rest id = some q := by
        rw [ctx_lookup, List.find?_cons_of_neg _ (by simp [hp])] at hl
        exact hl
      have hrm : ctx_remove (p :: rest) id = p :: ctx_remove rest id := by
        rw [ctx_remove, List.filter_cons, if_pos (by simp [hp])]
        rfl
      rw [hrm]
      exact ((ih id q hnd.2 hl').cons p).trans (List.Perm.swap q p _)

theorem countAsync_nil : countAsync [] = 0 := rfl

theorem countAsync_cons (q : ctx_query) (qs : List ctx_query) :
    countAsync (q :: qs) = (if q.async then 1 else 0) + countAsync qs := by
  cases hq : q.async <;> simp [countAsync, List.filter_cons, hq, Nat.add_comm]

theorem countAsync_perm {qs qs' : List ctx_query} (h : qs.Perm qs') :
    countAsync qs = countAsync qs' := by
  rw [countAsync, countAsync]
  exact (h.filter _).length_eq

/-! ## The context invariant and the trace invariant -/

/-- The state invariant of the context: distinct keys, `num_async` counts the
async records, the ghost serials are distinct and bounded by the admission
counter, and the one-time finalize side effects have run iff `finalized`. -/
structure CtxInv (ctx : ub_val_ctx) : Prop where
  keys_nodup : (queriesKeys ctx.queries).Nodup
  async_count : ctx.num_async = countAsync ctx.queries
  serials_nodup : (ctx.queries.map (fun q => q.serial)).Nodup
  serials_lt : ∀ q ∈ ctx.queries, q.serial < ctx.serial_next
  setup_once : ctx.setup_count = (if ctx.finalized then 1 else 0)

/-- The trace invariant: the state invariant plus — each record lifetime
(ghost serial) has received at most one delivery event, and no event's serial
is still outstanding. -/
structure TraceOK (ctx : ub_val_ctx) (evs : List DeliverEvent) : Prop where
  inv : CtxInv ctx
  evs_nodup : (evs.map DeliverEvent.serialOf).Nodup
  evs_lt : ∀ e ∈ evs, e.serialOf < ctx.serial_next
  evs_fresh : ∀ e ∈ evs, ∀ q ∈ ctx.queries, e.serialOf ≠ q.serial

/-- Characterization of a successful `context_new`: the returned record is
fresh (its key was not in the index, and was produced by the probe from
`next_querynum`), carries the original query in its result structure, and the
new state is the old one with the record inserted and the counters bumped. -/
theorem context_new_some {N : Nat} {ctx : ub_val_ctx} {name : String}
    {t c : Nat} {a m : Bool} {q : ctx_query} {ctx' : ub_val_ctx}
    (h : context_new N ctx name t c a m = some (q, ctx')) :
    q.querynum ∉ queriesKeys ctx.queries ∧ q.querynum < N ∧
    q.serial = ctx.serial_next ∧ q.async = a ∧
    q.res.qname = name ∧ q.res.qtype = t ∧ q.res.qclass = c ∧
    probe_free N (queriesKeys ctx.queries) ctx.next_querynum N = some q.querynum ∧
    ctx' = { ctx with
             queries := q :: ctx.queries
             next_querynum := q.querynum + 1
             num_async := ctx.num_async + (if a then 1 else 0)
             serial_next := ctx.serial_next + 1 } := by
  unfold context_new at h
  by_cases hm : m = false
  · rw [if_pos hm] at h; exact absurd h (by simp)
  · rw [if_neg hm] at h
    cases hp : probe_free N (queriesKeys ctx.queries) ctx.next_querynum N with
    | none => rw [hp] at h; exact absurd h (by simp)
    | some id =>
      rw [hp] at h
      simp only [Option.some.injEq, Prod.mk.injEq] at h
      obtain ⟨hq, hctx⟩ := h
      subst hq
      subst hctx
      obtain ⟨k, hk, hik, hfree, _⟩ := probe_free_some N (queriesKeys ctx.queries)
        N ctx.next_querynum id hp
      have hNpos : 0 < N := by omega
      have hlt : id < N := by rw [hik]; exact Nat.mod_lt _ hNpos
      refine ⟨hfree, hlt, rfl, rfl, rfl, rfl, rfl, ?_, rfl⟩
      simp [hp]

/-- `q.querynum < N` needs `0 < N`; restate the bound from the probe. -/
theorem context_new_querynum_lt {N : Nat} {ctx : ub_val_ctx} {name : String}
    {t c : Nat} {a m : Bool} {q : ctx_query} {ctx' : ub_val_ctx}
    (h : context_new N ctx name t c a m = some (q, ctx')) : q.querynum < N :=
  (context_new_some h).2.1

/-! ## Preservation of the invariants by each operation -/

theorem context_finalize_traceOK {ctx : ub_val_ctx} {evs : List DeliverEvent}
    (ht : TraceOK ctx evs) (ok : Bool) :
    TraceOK (context_finalize ctx ok).2 evs := by
  cases hf : ctx.finalized with
  | true =>
    have h2 : (context_finalize ctx ok).2 = ctx := by simp [context_finalize, hf]
    rw [h2]; exact ht
  | false =>
    cases hok : ok with
    | false =>
      have h2 : (context_finalize ctx false).2 = ctx := by
        simp [context_finalize, hf]
      rw [h2]; exact ht
    | true =>
      have h2 : (context_finalize ctx true).2
          = { ctx with finalized := true, setup_count := ctx.setup_count + 1 } := by
        simp [context_finalize, hf]
      rw [h2]
      have hsetup := ht.inv.setup_once
      rw [hf] at hsetup
      simp only [Bool.false_eq_true, if_false] at hsetup
      exact ⟨⟨ht.inv.keys_nodup, ht.inv.async_count, ht.inv.serials_nodup,
        ht.inv.serials_lt, by simp [hsetup]⟩, ht.evs_nodup, ht.evs_lt, ht.evs_fresh⟩

theorem context_new_traceOK {N : Nat} {ctx : ub_val_ctx} {evs : List DeliverEvent}
    (ht : TraceOK ctx evs) {name : String} {t c : Nat} {a m : Bool}
    {q : ctx_query} {ctx' : ub_val_ctx}
    (h : context_new N ctx name t c a m = some (q, ctx')) :
    TraceOK ctx' evs := by
  obtain ⟨hfree, hlt, hserial, hasync, _, _, _, _, hctx⟩ := context_new_some h
  subst hctx
  refine ⟨⟨?_, ?_, ?_, ?_, ?_⟩, ht.evs_nodup, ?_, ?_⟩
  · show (queriesKeys (q :: ctx.queries)).Nodup
    rw [queriesKeys_cons]
    exact List.nodup_cons.mpr ⟨hfree, ht.inv.keys_nodup⟩
  · show ctx.num_async + (if a then 1 else 0) = countAsync (q :: ctx.queries)
    rw [countAsync_cons, ht.inv.async_count, hasync]
    omega
  · show ((q :: ctx.queries).map (fun r => r.serial)).Nodup
    rw [List.map_cons]
    refine List.nodup_cons.mpr ⟨?_, ht.inv.serials_nodup⟩
    intro hmem
    obtain ⟨p, hp, hps⟩ := List.mem_map.mp hmem
    have := ht.inv.serials_lt p hp
    omega
  · show ∀ p ∈ q :: ctx.queries, p.serial < ctx.serial_next + 1
    intro p hp
    rcases List.mem_cons.mp hp with rfl | hp'
    · omega
    · have := ht.inv.serials_lt p hp'
      omega
  · show ctx.setup_count = (if ctx.finalized then 1 else 0)
    exact ht.inv.setup_once
  · show ∀ e ∈ evs, e.serialOf < ctx.serial_next + 1
    intro e he
    have := ht.evs_lt e he
    omega
  · show ∀ e ∈ evs, ∀ p ∈ q :: ctx.queries, e.serialOf ≠ p.serial
    intro e he p hp
    rcases List.mem_cons.mp hp with rfl | hp'
    · have := ht.evs_lt e he
      omega
    · exact ht.evs_fresh e he p hp'

theorem new_query_traceOK {N : Nat} {ctx : ub_val_ctx} {evs : List DeliverEvent}
    (ht : TraceOK ctx evs) (name : String) (t c : Nat) (a : Bool)
    (env : adm_env) :
    TraceOK (new_query N ctx name t c a env).2.2 evs := by
  unfold new_query
  by_cases h1 : ctx.finalized = false
  · rw [if_pos h1]; exact ht
  · rw [if_neg h1]
    by_cases h2 : env.syntax_ok = false
    · rw [if_pos h2]; exact ht
    · rw [if_neg h2]
      cases hcn : context_new N ctx name t c a env.malloc_ok with
      | none => simp only [hcn]; exact ht
      | some p =>
        obtain ⟨q, ctx'⟩ := p
        simp only [hcn]
        by_cases h3 : env.send_ok = false
        · rw [if_pos h3]; exact ht
        · rw [if_neg h3]
          exact context_new_traceOK ht hcn

/-- Removing a looked-up record (the common core of `poll_result` and
`cancel`) preserves the invariants; moreover the removed record's serial is no
longer among the outstanding serials. -/
theorem remove_entry_traceOK {ctx : ub_val_ctx} {evs : List DeliverEvent}
    (ht : TraceOK ctx evs) {id : Nat} {q : ctx_query}
    (hl : ctx_lookup ctx.queries id = some q) :
    TraceOK { ctx with
              queries := ctx_remove ctx.queries id
              num_async := ctx.num_async - (if q.async then 1 else 0) } evs ∧
    q.serial ∉ (ctx_remove ctx.queries id).map (fun r => r.serial) := by
  have hperm := lookup_remove_perm ctx.queries id q ht.inv.keys_nodup hl
  have hsub := ctx_remove_sublist ctx.queries id
  have hserials : ((q :: ctx_remove ctx.queries id).map (fun r => r.serial)).Nodup := by
    rw [← (hperm.map (fun r => r.serial)).nodup_iff]
    exact ht.inv.serials_nodup
  rw [List.map_cons, List.nodup_cons] at hserials
  have hcount : countAsync ctx.queries
      = (if q.async then 1 else 0) + countAsync (ctx_remove ctx.queries id) := by
    rw [countAsync_perm hperm, countAsync_cons]
  refine ⟨⟨⟨?_, ?_, ?_, ?_, ?_⟩, ht.evs_nodup, ht.evs_lt, ?_⟩, hserials.1⟩
  · show (List.map (fun r => r.querynum) (ctx_remove ctx.queries id)).Nodup
    have hk : (List.map (fun r => r.querynum) ctx.queries).Nodup := ht.inv.keys_nodup
    exact List.Nodup.sublist (hsub.map (fun r => r.querynum)) hk
  · show ctx.num_async - (if q.async then 1 else 0)
        = countAsync (ctx_remove ctx.queries id)
    rw [ht.inv.async_count, hcount]
    omega
  · exact hserials.2
  · intro p hp
    exact ht.inv.serials_lt p (hsub.subset hp)
  · exact ht.inv.setup_once
  · intro e he p hp
    exact ht.evs_fresh e he p (hsub.subset hp)

theorem cancel_traceOK {ctx : ub_val_ctx} {evs : List DeliverEvent}
    (ht : TraceOK ctx evs) (id : Nat) :
    TraceOK (cancel ctx id).2 evs := by
  unfold cancel
  cases hl : ctx_lookup ctx.queries id with
  | none => exact ht
  | some q => exact (remove_entry_traceOK ht hl).1

theorem poll_result_traceOK {ctx : ub_val_ctx} {evs : List DeliverEvent}
    (ht : TraceOK ctx evs) (msg : result_msg) :
    TraceOK (poll_result ctx msg).1 (evs ++ (poll_result ctx msg).2) := by
  unfold poll_result
  cases hl : ctx_lookup ctx.queries msg.querynum with
  | none => simpa using ht
  | some q =>
    obtain ⟨hqmem, hqkey⟩ := ctx_lookup_mem hl
    obtain ⟨ht', hgone⟩ := remove_entry_traceOK ht hl
    have hqser := ht.inv.serials_lt q hqmem
    have hnotevs : q.serial ∉ evs.map DeliverEvent.serialOf := by
      intro hmem
      obtain ⟨e, he, hes⟩ := List.mem_map.mp hmem
      exact ht.evs_fresh e he q hqmem hes
    set E : List DeliverEvent :=
      if q.async then [DeliverEvent.cbInvoke q.serial (delivered_result q msg)]
      else [DeliverEvent.syncDeliver q.serial (delivered_result q msg)] with hE
    have hEser : E.map DeliverEvent.serialOf = [q.serial] := by
      rw [hE]; cases q.async <;> simp [DeliverEvent.serialOf]
    refine ⟨ht'.inv, ?_, ?_, ?_⟩
    · rw [List.map_append, hEser]
      rw [(List.perm_append_singleton _ _).nodup_iff, List.nodup_cons]
      exact ⟨hnotevs, ht.evs_nodup⟩
    · intro e he
      rcases List.mem_append.mp he with he' | he'
      · exact ht.evs_lt e he'
      · have : e.serialOf ∈ E.map DeliverEvent.serialOf := List.mem_map_of_mem _ he'
        rw [hEser] at this
        simp at this
        rw [this]
        exact hqser
    · intro e he p hp
      rcases List.mem_append.mp he with he' | he'
      · exact ht'.evs_fresh e he' p hp
      · have : e.serialOf ∈ E.map DeliverEvent.serialOf := List.mem_map_of_mem _ he'
        rw [hEser] at this
        simp at this
        rw [this]
        intro hcontra
        exact hgone (hcontra ▸ List.mem_map_of_mem _ hp)

/-! ## The reachable states -/

theorem ctx_step_traceOK {N : Nat} {ctx : ub_val_ctx} {evs : List DeliverEvent}
    (ht : TraceOK ctx evs) (cmd : Cmd) :
    TraceOK (ctx_step N ctx cmd).1 (evs ++ (ctx_step N ctx cmd).2) := by
  cases cmd with
  | finalize ok => simpa [ctx_step] using context_finalize_traceOK ht ok
  | newQuery name t c a env =>
    simpa [ctx_step] using new_query_traceOK (N := N) ht name t c a env
  | pollResult msg => exact poll_result_traceOK ht msg
  | cancelQ id => simpa [ctx_step] using cancel_traceOK ht id

theorem ctx_run_traceOK (N : Nat) :
    ∀ (cmds : List Cmd) (ctx : ub_val_ctx) (evs : List DeliverEvent),
      TraceOK ctx evs →
      TraceOK (ctx_run N ctx cmds).1 (evs ++ (ctx_run N ctx cmds).2) := by
  intro cmds
  induction cmds with
  | nil => intro ctx evs ht; simpa [ctx_run] using ht
  | cons c cs ih =>
    intro ctx evs ht
    have h1 := ctx_step_traceOK (N := N) ht c
    have h2 := ih (ctx_step N ctx c).1 (evs ++ (ctx_step N ctx c).2) h1
    simpa [ctx_run, List.append_assoc] using h2

theorem traceOK_init : TraceOK init_ctx [] := by
  refine ⟨⟨?_, ?_, ?_, ?_, ?_⟩, ?_, ?_, ?_⟩ <;>
    simp [init_ctx, queriesKeys, countAsync]

/-- Every reachable state of the context, with the whole delivery trace,
satisfies the invariants. -/
theorem ctx_run_ok (N : Nat) (cmds : List Cmd) :
    TraceOK (ctx_run N init_ctx cmds).1 (ctx_run N init_ctx cmds).2 := by
  have h := ctx_run_traceOK N cmds init_ctx [] traceOK_init
  simpa using h

/-! ## Further characterizations of the operations -/

/-- A `new_query` that hands out an identifier is exactly a successful
`context_new` followed by a successful send. -/
theorem new_query_success {N : Nat} {ctx : ub_val_ctx} {name : String}
    {t c : Nat} {a : Bool} {env : adm_env} {id : Nat}
    (h : (new_query N ctx name t c a env).2.1 = some id) :
    ∃ q ctx', context_new N ctx name t c a env.malloc_ok = some (q, ctx') ∧
      q.querynum = id ∧
      new_query N ctx name t c a env = (UB_NOERROR, some id, ctx') := by
  unfold new_query at h ⊢
  by_cases h1 : ctx.finalized = false
  · rw [if_pos h1] at h; simp at h
  · rw [if_neg h1] at h ⊢
    by_cases h2 : env.syntax_ok = false
    · rw [if_pos h2] at h; simp at h
    · rw [if_neg h2] at h ⊢
      cases hcn : context_new N ctx name t c a env.malloc_ok with
      | none => simp only [hcn] at h; simp at h
      | some p =>
        obtain ⟨q, ctx'⟩ := p
        simp only [hcn] at h ⊢
        by_cases h3 : env.send_ok = false
        · rw [if_pos h3] at h; simp at h
        · rw [if_neg h3] at h ⊢
          have hq : q.querynum = id := by simpa using h
          exact ⟨q, ctx', rfl, hq, by rw [hq]⟩

theorem new_query_preserves_finalized {N : Nat} {ctx : ub_val_ctx}
    {name : String} {t c : Nat} {a : Bool} {env : adm_env} :
    ((new_query N ctx name t c a env).2.2).finalized = ctx.finalized := by
  unfold new_query
  by_cases h1 : ctx.finalized = false
  · rw [if_pos h1]
  · rw [if_neg h1]
    by_cases h2 : env.syntax_ok = false
    · rw [if_pos h2]
    · rw [if_neg h2]
      cases hcn : context_new N ctx name t c a env.malloc_ok with
      | none => simp only [hcn]
      | some p =>
        obtain ⟨q, ctx'⟩ := p
        simp only [hcn]
        by_cases h3 : env.send_ok = false
        · rw [if_pos h3]
        · rw [if_neg h3]
          obtain ⟨_, _, _, _, _, _, _, _, hctx⟩ := context_new_some hcn
          rw [hctx]

theorem poll_result_preserves_finalized {ctx : ub_val_ctx} {msg : result_msg} :
    ((poll_result ctx msg).1).finalized = ctx.finalized := by
  unfold poll_result
  cases hl : ctx_lookup ctx.queries msg.querynum <;> simp

theorem cancel_preserves_finalized {ctx : ub_val_ctx} {id : Nat} :
    ((cancel ctx id).2).finalized = ctx.finalized := by
  unfold cancel
  cases hl : ctx_lookup ctx.queries id <;> simp

theorem context_finalize_finalized_mono {ctx : ub_val_ctx} {ok : Bool}
    (hf : ctx.finalized = true) :
    ((context_finalize ctx ok).2).finalized = true := by
  simp [context_finalize, hf]

/-- No step clears the `finalized` flag. -/
theorem ctx_step_finalized_mono {N : Nat} {ctx : ub_val_ctx} (cmd : Cmd)
    (hf : ctx.finalized = true) :
    ((ctx_step N ctx cmd).1).finalized = true := by
  cases cmd with
  | finalize ok => exact context_finalize_finalized_mono hf
  | newQuery name t c a env =>
    show ((new_query N ctx name t c a env).2.2).finalized = true
    rw [new_query_preserves_finalized, hf]
  | pollResult msg =>
    show ((poll_result ctx msg).1).finalized = true
    rw [poll_result_preserves_finalized, hf]
  | cancelQ id =>
    show ((cancel ctx id).2).finalized = true
    rw [cancel_preserves_finalized, hf]

/-! ## Concrete sample states -/

/-- A freshly finalized context with no outstanding queries. -/
def fin_ctx : ub_val_ctx :=
  { finalized := true, setup_count := 1, next_querynum := 0, num_async := 0,
    serial_next := 0, queries := [] }

/-- The record admitted by `context_new 3 fin_ctx "w.example" 1 1 true true`. -/
def q0 : ctx_query :=
  { querynum := 0, async := true,
    res := { qname := "w.example", qtype := 1, qclass := 1, status := 0 },
    serial := 0 }

/-- The context after the admission of `q0`. -/
def busy_ctx : ub_val_ctx :=
  { finalized := true, setup_count := 1, next_querynum := 1, num_async := 1,
    serial_next := 1, queries := [q0] }

/-- A second outstanding record, occupying identifier 1. -/
def q1 : ctx_query :=
  { querynum := 1, async := false,
    res := { qname := "v.example", qtype := 1, qclass := 1, status := 0 },
    serial := 1 }

/-- A context whose two-element identifier space `{0, 1}` is fully occupied. -/
def full_ctx : ub_val_ctx :=
  { finalized := true, setup_count := 1, next_querynum := 2, num_async := 1,
    serial_next := 2, queries := [q0, q1] }

/-- An admission during which nothing fails. -/
def ok_env : adm_env := { syntax_ok := true, malloc_ok := true, send_ok := true }

/-- An admission during which the channel send fails. -/
def sendfail_env : adm_env :=
  { syntax_ok := true, malloc_ok := true, send_ok := false }

/-- A result message for identifier 0. -/
def msg0 : result_msg := { querynum := 0, status := 0 }

/-! ## The claims -/

/-- C1: identifiers handed out by `new_query` are pairwise distinct while
outstanding — in every reachable state the query index has pairwise-distinct
keys, so an identifier present denotes exactly one record; and an admission
only hands out an identifier that is not currently a key of the index (so no
identifier is reused before its record is removed by result delivery or
cancel), inserting the new record under it. -/
theorem new_query_identifiers_distinct :
    ∀ (N : Nat) (cmds : List Cmd),
      (queriesKeys ((ctx_run N init_ctx cmds).1).queries).Nodup
  ∧ ∀ (ctx : ub_val_ctx) (name : String) (t c : Nat) (a : Bool)
      (env : adm_env) (id : Nat),
      (new_query N ctx name t c a env).2.1 = some id →
      id ∉ queriesKeys ctx.queries ∧
      id ∈ queriesKeys ((new_query N ctx name t c a env).2.2).queries := by
  intro N cmds
  refine ⟨(ctx_run_ok N cmds).inv.keys_nodup, ?_⟩
  intro ctx name t c a env id h
  obtain ⟨q, ctx', hcn, hqid, hres⟩ := new_query_success h
  obtain ⟨hfree, _, _, _, _, _, _, _, hctx⟩ := context_new_some hcn
  have hstate : (new_query N ctx name t c a env).2.2 = ctx' := by rw [hres]
  constructor
  · rw [← hqid]; exact hfree
  · rw [hstate, hctx, queriesKeys_cons, ← hqid]
    exact List.mem_cons_self _ _

/-- Witness for C1: admitting a query into `busy_ctx` (identifier 0 taken)
hands out the fresh identifier 1 and records it. -/
theorem new_query_identifiers_distinct_witness :
    1 ∉ queriesKeys busy_ctx.queries ∧
    1 ∈ queriesKeys ((new_query 3 busy_ctx "v.example" 1 1 false ok_env).2.2).queries :=
  (new_query_identifiers_distinct 3 []).2 busy_ctx "v.example" 1 1 false ok_env 1
    (by decide)

/-- C2: identifier allocation starts probing at the stored candidate
`next_querynum` and tries successive integers wrapping modulo the identifier
space `N`: a successful probe returns the first candidate not present as a key
of the index, and `context_new` inserts the record under exactly that key; the
probe is exhausted if and only if every identifier of the space is a key, and
in that case `new_query` returns the defined error `UB_NOMEM` (allocation
failure) with the context unchanged, rather than crashing or looping. -/
theorem allocate_and_insert_correct :
    ∀ (N : Nat) (keys : List Nat) (start : Nat),
      (0 < N → (probe_free N keys start N = none ↔ ∀ r, r < N → r ∈ keys))
  ∧ (∀ i, probe_free N keys start N = some i →
        ∃ k, k < N ∧ i = (start + k) % N ∧ i ∉ keys ∧
          ∀ j, j < k → (start + j) % N ∈ keys)
  ∧ (∀ (ctx : ub_val_ctx) (name : String) (t c : Nat) (a m : Bool)
        (q : ctx_query) (ctx' : ub_val_ctx),
        context_new N ctx name t c a m = some (q, ctx') →
        probe_free N (queriesKeys ctx.queries) ctx.next_querynum N
            = some q.querynum ∧
        ctx'.queries = q :: ctx.queries)
  ∧ (∀ (ctx : ub_val_ctx) (name : String) (t c : Nat) (a : Bool)
        (env : adm_env),
        ctx.finalized = true → env.syntax_ok = true → env.malloc_ok = true →
        probe_free N (queriesKeys ctx.queries) ctx.next_querynum N = none →
        new_query N ctx name t c a env = (UB_NOMEM, none, ctx)) := by
  intro N keys start
  refine ⟨fun hN => probe_free_none_iff N keys start hN,
          fun i h => probe_free_some N keys N start i h, ?_, ?_⟩
  · intro ctx name t c a m q ctx' h
    obtain ⟨_, _, _, _, _, _, _, hp, hctx⟩ := context_new_some h
    exact ⟨hp, by rw [hctx]⟩
  · intro ctx name t c a env hf hs hm hp
    have hcn : context_new N ctx name t c a env.malloc_ok = none := by
      unfold context_new
      rw [if_neg (by simp [hm]), hp]
    unfold new_query
    rw [if_neg (by simp [hf]), if_neg (by simp [hs])]
    simp only [hcn]

/-- Witness for C2: in `full_ctx` the whole identifier space of size 2 is
occupied, and admission reports `UB_NOMEM` leaving the context unchanged. -/
theorem allocate_and_insert_correct_witness :
    new_query 2 full_ctx "u.example" 1 1 false ok_env
      = (UB_NOMEM, none, full_ctx) :=
  (allocate_and_insert_correct 2 (queriesKeys full_ctx.queries)
      full_ctx.next_querynum).2.2.2 full_ctx "u.example" 1 1 false ok_env
    rfl rfl rfl (by decide)

/-- C3: `context_finalize` is idempotent after success — on an already
finalized context every call returns success and changes nothing; no step of
the system ever clears `finalized` (it transitions false to true exactly
once); the first successful call sets `finalized` and performs the one-time
side effects; and in every reachable state the side effects have been
performed exactly once when finalized and never otherwise. -/
theorem context_finalize_idempotent :
    (∀ (ctx : ub_val_ctx) (ok : Bool), ctx.finalized = true →
        context_finalize ctx ok = (UB_NOERROR, ctx))
  ∧ (∀ (N : Nat) (ctx : ub_val_ctx) (cmd : Cmd), ctx.finalized = true →
        ((ctx_step N ctx cmd).1).finalized = true)
  ∧ (∀ ctx : ub_val_ctx, ctx.finalized = false →
        context_finalize ctx true
          = (UB_NOERROR, { ctx with
                           finalized := true
                           setup_count := ctx.setup_count + 1 }))
  ∧ (∀ (N : Nat) (cmds : List Cmd),
        ((ctx_run N init_ctx cmds).1).setup_count
          = if ((ctx_run N init_ctx cmds).1).finalized then 1 else 0) := by
  refine ⟨?_, ?_, ?_, ?_⟩
  · intro ctx ok hf
    simp [context_finalize, hf]
  · intro N ctx cmd hf
    exact ctx_step_finalized_mono cmd hf
  · intro ctx hf
    simp [context_finalize, hf]
  · intro N cmds
    exact (ctx_run_ok N cmds).inv.setup_once

/-- Witness for C3: finalizing the already-finalized `fin_ctx` succeeds and
changes nothing. -/
theorem context_finalize_idempotent_witness :
    context_finalize fin_ctx true = (UB_NOERROR, fin_ctx) :=
  context_finalize_idempotent.1 fin_ctx true rfl

/-- C4: when `new_query` fails, the error is returned synchronously and the
context state is exactly as before the call — no identifier is handed out, the
partially-constructed record is not retained in the index and `num_async` is
untouched (the returned state equals the input state); malformed input yields
`UB_SYNTAX` before dispatch, allocation failure (memory or identifier-space
exhaustion) yields `UB_NOMEM`, and a channel-send failure after a successful
allocation yields `UB_SOCKET`. -/
theorem new_query_failure_rollback :
    ∀ (N : Nat) (ctx : ub_val_ctx) (name : String) (t c : Nat) (a : Bool)
      (env : adm_env),
      ((new_query N ctx name t c a env).1 ≠ UB_NOERROR →
        (new_query N ctx name t c a env).2.1 = none ∧
        (new_query N ctx name t c a env).2.2 = ctx)
  ∧ (ctx.finalized = true → env.syntax_ok = false →
        (new_query N ctx name t c a env).1 = UB_SYNTAX)
  ∧ (ctx.finalized = true → env.syntax_ok = true →
        context_new N ctx name t c a env.malloc_ok = none →
        (new_query N ctx name t c a env).1 = UB_NOMEM)
  ∧ (∀ (q : ctx_query) (ctx' : ub_val_ctx),
        ctx.finalized = true → env.syntax_ok = true → env.send_ok = false →
        context_new N ctx name t c a env.malloc_ok = some (q, ctx') →
        (new_query N ctx name t c a env).1 = UB_SOCKET) := by
  intro N ctx name t c a env
  refine ⟨?_, ?_, ?_, ?_⟩
  · intro hne
    unfold new_query at hne ⊢
    by_cases h1 : ctx.finalized = false
    · rw [if_pos h1] at hne ⊢; exact ⟨rfl, rfl⟩
    · rw [if_neg h1] at hne ⊢
      by_cases h2 : env.syntax_ok = false
      · rw [if_pos h2] at hne ⊢; exact ⟨rfl, rfl⟩
      · rw [if_neg h2] at hne ⊢
        cases hcn : context_new N ctx name t c a env.malloc_ok with
        | none => simp [hcn]
        | some p =>
          obtain ⟨q, ctx'⟩ := p
          simp only [hcn] at hne ⊢
          by_cases h3 : env.send_ok = false
          · rw [if_pos h3]; exact ⟨rfl, rfl⟩
          · rw [if_neg h3] at hne
            exact absurd rfl hne
  · intro hf hs
    unfold new_query
    rw [if_neg (by simp [hf]), if_pos hs]
  · intro hf hs hcn
    unfold new_query
    rw [if_neg (by simp [hf]), if_neg (by simp [hs])]
    simp only [hcn]
  · intro q ctx' hf hs hsend hcn
    unfold new_query
    rw [if_neg (by simp [hf]), if_neg (by simp [hs])]
    simp only [hcn]
    rw [if_pos hsend]

/-- Witness for C4: a send failure during admission into `busy_ctx` returns
no identifier and leaves the context exactly as it was. -/
theorem new_query_failure_rollback_witness :
    (new_query 3 busy_ctx "v.example" 1 1 true sendfail_env).2.1 = none ∧
    (new_query 3 busy_ctx "v.example" 1 1 true sendfail_env).2.2 = busy_ctx :=
  (new_query_failure_rollback 3 busy_ctx "v.example" 1 1 true sendfail_env).1
    (by decide)

/-- C5: at every quiescent point (reachable state) `num_async` equals the
number of async records in the query index; it is a natural number (never
negative), incremented by one exactly on an async admission, and decremented
by one exactly when an async record is removed by result delivery or by
cancellation. -/
theorem num_async_matches_outstanding :
    (∀ (N : Nat) (cmds : List Cmd),
        ((ctx_run N init_ctx cmds).1).num_async
          = countAsync ((ctx_run N init_ctx cmds).1).queries)
  ∧ (∀ (N : Nat) (ctx : ub_val_ctx) (name : String) (t c : Nat) (a m : Bool)
        (q : ctx_query) (ctx' : ub_val_ctx),
        context_new N ctx name t c a m = some (q, ctx') →
        ctx'.num_async = ctx.num_async + (if a then 1 else 0))
  ∧ (∀ (ctx : ub_val_ctx) (msg : result_msg) (q : ctx_query),
        ctx_lookup ctx.queries msg.querynum = some q →
        ((poll_result ctx msg).1).num_async
          = ctx.num_async - (if q.async then 1 else 0))
  ∧ (∀ (ctx : ub_val_ctx) (id : Nat) (q : ctx_query),
        ctx_lookup ctx.queries id = some q →
        ((cancel ctx id).2).num_async
          = ctx.num_async - (if q.async then 1 else 0)) := by
  refine ⟨?_, ?_, ?_, ?_⟩
  · intro N cmds
    exact (ctx_run_ok N cmds).inv.async_count
  · intro N ctx name t c a m q ctx' h
    obtain ⟨_, _, _, _, _, _, _, _, hctx⟩ := context_new_some h
    rw [hctx]
  · intro ctx msg q hl
    unfold poll_result
    simp only [hl]
  · intro ctx id q hl
    unfold cancel
    simp only [hl]

/-- Witness for C5: delivering the result of the async record `q0` decrements
the counter of `busy_ctx`. -/
theorem num_async_matches_outstanding_witness :
    ((poll_result busy_ctx msg0).1).num_async
      = busy_ctx.num_async - (if q0.async then 1 else 0) :=
  num_async_matches_outstanding.2.2.1 busy_ctx msg0 q0 (by decide)

/-- `cancel` of an identifier that is not outstanding is a complete no-op. -/
theorem cancel_of_lookup_none {ctx : ub_val_ctx} {id : Nat}
    (hl : ctx_lookup ctx.queries id = none) :
    cancel ctx id = (UB_NOERROR, ctx) := by
  unfold cancel
  simp only [hl]

/-- C6: `cancel` always returns success; cancelling an identifier that is not
outstanding is a no-op (state unchanged, no crash); cancelling an outstanding
identifier removes its record from the index (releasing the buffered result
with it) and decrements `num_async` iff the record was async; and cancelling
the same identifier a second time is a no-op returning success. -/
theorem cancel_idempotent_noop :
    ∀ (ctx : ub_val_ctx) (id : Nat),
      (cancel ctx id).1 = UB_NOERROR
  ∧ (ctx_lookup ctx.queries id = none → (cancel ctx id).2 = ctx)
  ∧ (∀ q, ctx_lookup ctx.queries id = some q →
        ((cancel ctx id).2).queries = ctx_remove ctx.queries id ∧
        ((cancel ctx id).2).num_async
          = ctx.num_async - (if q.async then 1 else 0))
  ∧ cancel ((cancel ctx id).2) id = (UB_NOERROR, (cancel ctx id).2) := by
  intro ctx id
  refine ⟨?_, ?_, ?_, ?_⟩
  · unfold cancel
    cases hl : ctx_lookup ctx.queries id <;> simp
  · intro hl
    unfold cancel
    simp only [hl]
  · intro q hl
    unfold cancel
    simp [hl]
  · cases hl : ctx_lookup ctx.queries id with
    | none =>
      have hstate : (cancel ctx id).2 = ctx := by unfold cancel; simp only [hl]
      rw [hstate]
      exact cancel_of_lookup_none hl
    | some q =>
      have hstate : ((cancel ctx id).2).queries = ctx_remove ctx.queries id := by
        unfold cancel; simp only [hl]
      have hl2 : ctx_lookup ((cancel ctx id).2).queries id = none := by
        rw [hstate]; exact ctx_lookup_ctx_remove ctx.queries id
      exact cancel_of_lookup_none hl2

/-- Witness for C6: cancelling identifier 0 in `busy_ctx` removes `q0` and
decrements the async counter. -/
theorem cancel_idempotent_noop_witness :
    ((cancel busy_ctx 0).2).queries = ctx_remove busy_ctx.queries 0 ∧
    ((cancel busy_ctx 0).2).num_async
      = busy_ctx.num_async - (if q0.async then 1 else 0) :=
  (cancel_idempotent_noop busy_ctx 0).2.2.1 q0 (by decide)

/-- C7: every admitted query's result is delivered at most once and to exactly
one owner — over every run of the system, the emitted delivery events carry
pairwise-distinct record serials (so no record lifetime ever receives two
deliveries, in particular never both the synchronous hand-back and a callback
invocation); and a delivering `poll_result` emits exactly one event, a
callback invocation iff the record is async and a synchronous hand-back to the
blocked caller otherwise. -/
theorem result_delivered_exactly_once :
    (∀ (N : Nat) (cmds : List Cmd),
        (((ctx_run N init_ctx cmds).2).map DeliverEvent.serialOf).Nodup)
  ∧ (∀ (ctx : ub_val_ctx) (msg : result_msg) (q : ctx_query),
        ctx_lookup ctx.queries msg.querynum = some q →
        (poll_result ctx msg).2
          = if q.async then
              [DeliverEvent.cbInvoke q.serial (delivered_result q msg)]
            else [DeliverEvent.syncDeliver q.serial (delivered_result q msg)]) := by
  refine ⟨?_, ?_⟩
  · intro N cmds
    exact (ctx_run_ok N cmds).evs_nodup
  · intro ctx msg q hl
    unfold poll_result
    simp only [hl]

/-- Witness for C7: delivering `q0`'s result emits exactly its one callback
invocation. -/
theorem result_delivered_exactly_once_witness :
    (poll_result busy_ctx msg0).2
      = if q0.async then
          [DeliverEvent.cbInvoke q0.serial (delivered_result q0 msg0)]
        else [DeliverEvent.syncDeliver q0.serial (delivered_result q0 msg0)] :=
  result_delivered_exactly_once.2 busy_ctx msg0 q0 (by decide)

/-- C8: a result message whose identifier is not in the query index (the query
was already cancelled) is discarded by `poll_result`: the returned state is
the unchanged context (index and async counter untouched) and no delivery
event — in particular no callback invocation — is emitted. -/
theorem poll_result_discards_cancelled :
    ∀ (ctx : ub_val_ctx) (msg : result_msg),
      ctx_lookup ctx.queries msg.querynum = none →
      poll_result ctx msg = (ctx, []) := by
  intro ctx msg hl
  unfold poll_result
  simp only [hl]

/-- Witness for C8: a result for the unknown identifier 7 is discarded. -/
theorem poll_result_discards_cancelled_witness :
    poll_result busy_ctx { querynum := 7, status := 0 } = (busy_ctx, []) :=
  poll_result_discards_cancelled busy_ctx { querynum := 7, status := 0 }
    (by decide)

/-- C9: the result slot built at admission time carries the original query
(name, record type, record class); the record is in the index under the new
state; and the result handed to the owner at delivery (the admission-time slot
completed with the worker's status) still carries them, so the receiver can
recover which question it answers without consulting the index. -/
theorem result_slot_carries_original_query :
    ∀ (N : Nat) (ctx : ub_val_ctx) (name : String) (t c : Nat) (a m : Bool)
      (q : ctx_query) (ctx' : ub_val_ctx) (msg : result_msg),
      context_new N ctx name t c a m = some (q, ctx') →
      q ∈ ctx'.queries ∧
      q.res.qname = name ∧ q.res.qtype = t ∧ q.res.qclass = c ∧
      (delivered_result q msg).qname = name ∧
      (delivered_result q msg).qtype = t ∧
      (delivered_result q msg).qclass = c := by
  intro N ctx name t c a m q ctx' msg h
  obtain ⟨_, _, _, _, hn, ht, hc, _, hctx⟩ := context_new_some h
  refine ⟨?_, hn, ht, hc, ?_, ?_, ?_⟩
  · rw [hctx]
    exact List.mem_cons_self _ _
  · simp [delivered_result, hn]
  · simp [delivered_result, ht]
  · simp [delivered_result, hc]

/-- Witness for C9: the record admitted into `fin_ctx` carries its query in
its result slot, before and after delivery. -/
theorem result_slot_carries_original_query_witness :
    q0 ∈ busy_ctx.queries ∧
    q0.res.qname = "w.example" ∧ q0.res.qtype = 1 ∧ q0.res.qclass = 1 ∧
    (delivered_result q0 msg0).qname = "w.example" ∧
    (delivered_result q0 msg0).qtype = 1 ∧
    (delivered_result q0 msg0).qclass = 1 :=
  result_slot_carries_original_query 3 fin_ctx "w.example" 1 1 true true q0
    busy_ctx msg0 (by decide)

/-- C10: success is encoded as the single value `UB_NOERROR = 0`, the five
error kinds have pairwise-distinct nonzero values, a status value denotes
success if and only if it equals 0, and in particular `context_finalize`'s
status is 0 exactly when the context ends up finalized. -/
theorem error_codes_success_iff_zero :
    ([UB_NOERROR.toNat, UB_NOMEM.toNat, UB_SOCKET.toNat, UB_SYNTAX.toNat,
      UB_SERVFAIL.toNat, UB_INITFAIL.toNat]).Nodup
  ∧ UB_NOERROR.toNat = 0
  ∧ (∀ e : ub_ctx_err, e.toNat = 0 ↔ e = UB_NOERROR)
  ∧ (∀ (ctx : ub_val_ctx) (ok : Bool),
      ((context_finalize ctx ok).1).toNat = 0
        ↔ ((context_finalize ctx ok).2).finalized = true) := by
  refine ⟨by decide, rfl, ?_, ?_⟩
  · intro e
    cases e <;> simp [ub_ctx_err.toNat]
  · intro ctx ok
    cases hf : ctx.finalized with
    | true => simp [context_finalize, hf, ub_ctx_err.toNat]
    | false =>
      cases ok with
      | true => simp [context_finalize, hf, ub_ctx_err.toNat]
      | false => simp [context_finalize, hf, ub_ctx_err.toNat]
